import Mathlib

/-!
Verification of the suggestion pipeline of `patrick-hubert/coding-challenge-backend-c`.

The repository ships `src/app.js` (the HTTP request handler `handlerSuggestion`
and the startup function `initServer`).  The library modules it calls
(`lib/data-store`, `lib/scoring`, `lib/sorting` and the gazetteer loader) are not
part of the source tree, so those operations are modelled from the
specification, as indicated on each definition.  Machine floats of the
JavaScript runtime are modelled by exact rationals `ℚ`; the transcendental
haversine distance is modelled over `ℝ`.
-/

/-! ## Normalizer -/

/-- Modelled from the spec: the Normalizer (`lib/data-store` is missing from the
source tree) lower-cases and strips diacritical marks.  A single character
table performs both: each upper-case basic-latin letter and a representative
set of accented latin letters map to their plain lower-case form. -/
def normPairs : List (Char × Char) :=
  [('A', 'a'), ('B', 'b'), ('C', 'c'), ('D', 'd'), ('E', 'e'), ('F', 'f'),
   ('G', 'g'), ('H', 'h'), ('I', 'i'), ('J', 'j'), ('K', 'k'), ('L', 'l'),
   ('M', 'm'), ('N', 'n'), ('O', 'o'), ('P', 'p'), ('Q', 'q'), ('R', 'r'),
   ('S', 's'), ('T', 't'), ('U', 'u'), ('V', 'v'), ('W', 'w'), ('X', 'x'),
   ('Y', 'y'), ('Z', 'z'),
   ('À', 'a'), ('Â', 'a'), ('Ä', 'a'), ('Ç', 'c'), ('É', 'e'), ('È', 'e'),
   ('Ê', 'e'), ('Ë', 'e'), ('Î', 'i'), ('Ï', 'i'), ('Ô', 'o'), ('Ö', 'o'),
   ('Ù', 'u'), ('Û', 'u'), ('Ü', 'u'),
   ('à', 'a'), ('â', 'a'), ('ä', 'a'), ('ç', 'c'), ('é', 'e'), ('è', 'e'),
   ('ê', 'e'), ('ë', 'e'), ('î', 'i'), ('ï', 'i'), ('ô', 'o'), ('ö', 'o'),
   ('ù', 'u'), ('û', 'u'), ('ü', 'u')]

/-- Modelled from the spec: canonicalize one character (case folding plus
diacritic stripping). -/
def normChar (c : Char) : Char :=
  match normPairs.find? (fun p => p.1 = c) with
  | some p => p.2
  | none => c

/-- Modelled from the spec: remove trailing whitespace. -/
def trimRight : List Char → List Char
  | [] => []
  | c :: cs =>
    match trimRight cs with
    | [] => if c.isWhitespace then [] else [c]
    | r => c :: r

/-- Modelled from the spec: remove surrounding whitespace. -/
def trimChars (l : List Char) : List Char :=
  trimRight (l.dropWhile Char.isWhitespace)

/-- Modelled from the spec: `normalize(text)` lower-cases, strips diacritical
marks and trims surrounding whitespace (spec section 4.2). -/
def normalizeText (s : String) : String :=
  ⟨trimChars (s.data.map normChar)⟩

/-! ## Data model -/

/-- A place record of the gazetteer (spec section 3). -/
structure City where
  name : String
  aliases : List String
  latitude : ℚ
  longitude : ℚ
  population : ℕ
  country : String
  admin : String
deriving DecidableEq

/-- A candidate: a place record paired with match metadata (spec section 3). -/
structure Candidate where
  city : City
  matchedLength : ℕ
  queryLength : ℕ
deriving DecidableEq

/-- The externally visible suggestion shape (spec section 3). -/
structure Suggestion where
  name : String
  latitude : ℚ
  longitude : ℚ
  score : ℚ
deriving DecidableEq

/-! ## Matcher -/

/-- Modelled from the spec: `dataStore.query` (the `lib/data-store` module is
missing from the source tree).  A record is a candidate when its normalized
name, or a normalized alias, begins with the normalized query; an empty
normalized query produces no candidates (spec section 4.3). -/
def matchQuery (gaz : List City) (q : String) : List Candidate :=
  let nq := normalizeText q
  if nq = "" then []
  else
    (gaz.filter (fun c =>
        nq.data.isPrefixOf (normalizeText c.name).data
          || c.aliases.any (fun a => nq.data.isPrefixOf (normalizeText a).data))).map
      (fun c => ⟨c, nq.length, nq.length⟩)

/-! ## Scorer -/

/-- Modelled from the spec: the Scorer (`lib/scoring` is missing from the
source tree) returns matched length over name length (spec section 4.4). -/
def scoreCandidate (c : Candidate) : ℚ :=
  (c.matchedLength : ℚ) / ((normalizeText c.city.name).length : ℚ)

/-- Modelled from the spec: clamp a score into the interval from 0 to 1. -/
def clamp01 (q : ℚ) : ℚ := if q ≤ 0 then 0 else if 1 ≤ q then 1 else q

/-- Modelled from the spec: round to two decimal places (round half up, as the
JavaScript `Math.round` does for non-negative arguments). -/
def round2 (q : ℚ) : ℚ := (Rat.floor (q * 100 + 1/2) : ℚ) / 100

/-- Modelled from the spec: the suggestion attached to one retained candidate;
the score is clamped and rounded at attachment time (spec section 4.4). -/
def mkSuggestion (c : Candidate) : Suggestion :=
  ⟨c.city.name, c.city.latitude, c.city.longitude, round2 (clamp01 (scoreCandidate c))⟩

/-- Modelled from the spec: `scoring.scoreResults(results, maxResults)`
(`lib/scoring` is missing from the source tree) keeps the first `maxResults`
ranked candidates and attaches a score to each (spec section 4.6). -/
def scoreResults (results : List Candidate) (maxResults : ℕ) : List Suggestion :=
  (results.take maxResults).map mkSuggestion

/-! ## Ranker -/

/-- Modelled from the spec: stable insertion used by the sorting routine
(`lib/sorting` is missing from the source tree): an element is placed before
the first element it compares less-or-equal to. -/
def insertLe {α : Type} (le : α → α → Bool) (a : α) : List α → List α
  | [] => [a]
  | b :: l => if le a b then a :: b :: l else b :: insertLe le a l

/-- Modelled from the spec: `sorting.sortResults(results, comparator)`: a
stable sort of the candidate list by the given comparator. -/
def sortResults {α : Type} (le : α → α → Bool) (l : List α) : List α :=
  l.foldr (insertLe le) []

/-- Modelled from the spec: `sorting.sortResultsByPopulation`: descending
population order (spec section 4.5). -/
def sortResultsByPopulation (a b : Candidate) : Bool :=
  b.city.population ≤ a.city.population

/-- Modelled from the spec: great-circle distance by the haversine formula on a
spherical Earth of mean radius 6371 km (spec section 4.5). -/
noncomputable def haversineDistance (lat1 lon1 lat2 lon2 : ℚ) : ℝ :=
  let rad : ℚ → ℝ := fun d => (d : ℝ) * Real.pi / 180
  let dLat := rad lat2 - rad lat1
  let dLon := rad lon2 - rad lon1
  let a := Real.sin (dLat / 2) ^ 2
    + Real.cos (rad lat1) * Real.cos (rad lat2) * Real.sin (dLon / 2) ^ 2
  2 * 6371 * Real.arcsin (Real.sqrt a)

/-- Modelled from the spec: `sorting.sortResultsByDistance`: ascending distance
from the supplied point (spec section 4.5). -/
noncomputable def sortResultsByDistance (pt : ℚ × ℚ) (a b : Candidate) : Bool :=
  decide (haversineDistance pt.1 pt.2 a.city.latitude a.city.longitude
    ≤ haversineDistance pt.1 pt.2 b.city.latitude b.city.longitude)

/-! ## Pipeline -/

/-- The core pipeline operation (spec section 6): Matcher, then Ranker (mode
chosen by the presence of a point), then truncation and scoring.  The branch
structure follows `handlerSuggestion` in `src/app.js` (lines 79 to 97). -/
noncomputable def suggest (gaz : List City) (q : String) (pt : Option (ℚ × ℚ))
    (maxResults : ℕ) : List Suggestion :=
  let results := matchQuery gaz q
  let sorted :=
    match pt with
    | some p => sortResults (sortResultsByDistance p) results
    | none => sortResults sortResultsByPopulation results
  scoreResults sorted maxResults

/-! ## JavaScript number coercion -/

/-- Value of a digit string. -/
def digitsVal (l : List Char) : ℕ :=
  l.foldl (fun n c => n * 10 + (c.toNat - 48)) 0

/-- Modelled from the spec: decimal literal parsing as performed by the
JavaScript `Number` coercion, restricted to plain decimal literals
(optional integer part, optional fraction part, at least one digit;
exponents, hexadecimal and infinity forms are left out). -/
def parseDecimalDigits (l : List Char) : Option ℚ :=
  let intPart := l.takeWhile Char.isDigit
  match l.dropWhile Char.isDigit with
  | [] => if intPart.isEmpty then none else some (digitsVal intPart)
  | '.' :: frac =>
    if frac.all Char.isDigit && !(intPart.isEmpty && frac.isEmpty) then
      some ((digitsVal intPart : ℚ) + (digitsVal frac : ℚ) / (10 : ℚ) ^ frac.length)
    else none
  | _ => none

/-- Modelled from the spec: the JavaScript `Number(string)` coercion used by
`isNaN` in `src/app.js` line 65: surrounding whitespace is ignored, an empty
or all-whitespace string coerces to 0, otherwise an optionally signed decimal
literal is parsed; `none` models `NaN`. -/
def jsToNumber (s : String) : Option ℚ :=
  match trimChars s.data with
  | [] => some 0
  | '+' :: rest => parseDecimalDigits rest
  | '-' :: rest => (parseDecimalDigits rest).map (fun q => -q)
  | l => parseDecimalDigits l

/-- The `isNaN(x)` test of `src/app.js` line 65. -/
def jsIsNaN (s : String) : Bool := (jsToNumber s).isNone

/-- JavaScript truthiness of an optional query-string parameter: present and
not the empty string. -/
def truthy : Option String → Bool
  | none => false
  | some s => !s.isEmpty

/-- The string carried by an optional parameter, defaulting to empty. -/
def optStr (x : Option String) : String := x.getD ""

/-- The numeric value of a coordinate parameter, defaulting to 0. -/
def toNumD (x : Option String) : ℚ := (jsToNumber (optStr x)).getD 0

/-- A string is numeric when it is non-empty and parses as a number. -/
def numericString (s : String) : Bool := !s.isEmpty && (jsToNumber s).isSome

/-! ## Request handler (from `src/app.js`) -/

/-- The outcome of one request to the suggestions route: the two 400 error
bodies of `src/app.js`, or a suggestions body (served with status 404 when
empty and 200 otherwise). -/
inductive Response where
  | missingParam : Response
  | invalidParam : Response
  | suggestions : List Suggestion → Response
deriving DecidableEq

/-- The ranking-mode test of `src/app.js` line 79: `if (longitude && latitude)`. -/
def distanceMode (lat lon : Option String) : Bool :=
  truthy lon && truthy lat

/-- The coordinate validation of `src/app.js` line 65:
`(latitude && isNaN(latitude)) || (longitude && isNaN(longitude))` rejects. -/
def passesCoordValidation (lat lon : Option String) : Bool :=
  !((truthy lat && jsIsNaN (optStr lat)) || (truthy lon && jsIsNaN (optStr lon)))

/-- `handlerSuggestion` of `src/app.js` (lines 57 to 107): reject a missing or
empty `q`, reject a supplied non-numeric coordinate, otherwise run the
pipeline, ranking by distance when both coordinates are truthy and by
population otherwise. -/
noncomputable def handlerSuggestion (gaz : List City) (maxResults : ℕ)
    (q lat lon : Option String) : Response :=
  match q with
  | none => .missingParam
  | some qs =>
    if qs = "" then .missingParam
    else if !passesCoordValidation lat lon then .invalidParam
    else if distanceMode lat lon then
      .suggestions (suggest gaz qs (some (toNumD lat, toNumD lon)) maxResults)
    else
      .suggestions (suggest gaz qs none maxResults)

/-- The status code written for each response (`src/app.js` lines 62 to 102):
400 for the parameter errors, 404 for an empty suggestions body, 200 otherwise. -/
def statusOf : Response → ℕ
  | .missingParam => 400
  | .invalidParam => 400
  | .suggestions body => if body.isEmpty then 404 else 200

/-! ## Gazetteer loader -/

/-- Modelled from the spec: one data row of the tab-delimited gazetteer file,
already split into its named fields (spec section 4.1); the header line and
field splitting are abstracted away. -/
structure RawRow where
  name : String
  alternateNames : String
  latitude : String
  longitude : String
  population : String
  country : String
  admin : String
deriving DecidableEq

/-- Modelled from the spec: the alternate-names field is a comma separated
list. -/
def splitAliases (s : String) : List String :=
  if s = "" then [] else s.splitOn ","

/-- Modelled from the spec: validation of one data row (spec section 4.1): a
row whose latitude or longitude is non-numeric or out of range, or whose name
is empty, is refused with a warning message; otherwise it yields a place
record. -/
def parseRow (r : RawRow) : Except String City :=
  match jsToNumber r.latitude, jsToNumber r.longitude with
  | some la, some lo =>
    if la < -90 ∨ 90 < la then .error "skipped row: latitude out of range"
    else if lo < -180 ∨ 180 < lo then .error "skipped row: longitude out of range"
    else if r.name = "" then .error "skipped row: empty name"
    else .ok ⟨r.name, splitAliases r.alternateNames, la, lo,
      (Rat.floor ((jsToNumber r.population).getD 0)).toNat, r.country, r.admin⟩
  | _, _ => .error "skipped row: non-numeric coordinate"

/-- A row that the loader must skip: latitude or longitude non-numeric or out
of range, or an empty name field. -/
def malformedRow (r : RawRow) : Bool :=
  match jsToNumber r.latitude, jsToNumber r.longitude with
  | some la, some lo =>
    decide (la < -90) || decide (90 < la) || decide (lo < -180)
      || decide (180 < lo) || decide (r.name = "")
  | _, _ => true

/-- Modelled from the spec: parse every data row, collecting the catalog of
valid rows and one warning per skipped row (spec section 4.1). -/
def loadRows : List RawRow → List City × List String
  | [] => ([], [])
  | r :: rs =>
    match parseRow r, loadRows rs with
    | .ok c, (cs, ws) => (c :: cs, ws)
    | .error w, (cs, ws) => (cs, w :: ws)

/-- Modelled from the spec: `load(source) -> Gazetteer | LoadError` (spec
section 4.1).  `none` models a source file that cannot be opened; an opened
file always loads, its malformed rows skipped with warnings. -/
def load (source : Option (List RawRow)) : Except String (List City × List String) :=
  match source with
  | none => .error "LoadError: unable to open gazetteer source"
  | some rows => .ok (loadRows rows)

/-- Whether startup reached a ready, serving state. -/
inductive InitOutcome where
  | notReady : InitOutcome
  | ready : List City → InitOutcome
deriving DecidableEq

/-- `initServer` of `src/app.js` (lines 118 to 157): when the data source
cannot be set the error is logged and no server is created; otherwise the
server is started over the loaded catalog. -/
def initServer (source : Option (List RawRow)) : InitOutcome :=
  match load source with
  | .error _ => .notReady
  | .ok (gaz, _) => .ready gaz

/-! ## Normalizer lemmas -/

theorem normChar_mem_fixed : ∀ p ∈ normPairs, normChar p.2 = p.2 := by decide

theorem isWhitespace_mem_normPairs :
    ∀ p ∈ normPairs, p.2.isWhitespace = p.1.isWhitespace := by decide

theorem normChar_idem (c : Char) : normChar (normChar c) = normChar c := by
  cases h : normPairs.find? (fun p => p.1 = c) with
  | none =>
    have hc : normChar c = c := by simp only [normChar, h]
    simp only [hc]
  | some pr =>
    have hc : normChar c = pr.2 := by simp only [normChar, h]
    rw [hc]
    exact normChar_mem_fixed pr (List.mem_of_find?_eq_some h)

theorem isWhitespace_normChar (c : Char) :
    (normChar c).isWhitespace = c.isWhitespace := by
  cases h : normPairs.find? (fun p => p.1 = c) with
  | none => simp only [normChar, h]
  | some pr =>
    have hc : normChar c = pr.2 := by simp only [normChar, h]
    have hp1 : pr.1 = c := by
      have hfs := List.find?_some h
      simpa using hfs
    rw [hc, ← hp1]
    exact isWhitespace_mem_normPairs pr (List.mem_of_find?_eq_some h)

theorem trimRight_isPre (l : List Char) : trimRight l <+: l := by
  induction l with
  | nil => exact ⟨[], rfl⟩
  | cons c cs ih =>
    simp only [trimRight]
    cases h : trimRight cs with
    | nil =>
      by_cases hw : c.isWhitespace = true
      · rw [if_pos hw]
        exact ⟨c :: cs, rfl⟩
      · rw [if_neg hw]
        exact ⟨cs, rfl⟩
    | cons a r =>
      rw [h] at ih
      obtain ⟨t, ht⟩ := ih
      exact ⟨t, by rw [List.cons_append, ht]⟩

theorem trimRight_eq_self (l : List Char)
    (h : ∀ c ∈ l.getLast?, c.isWhitespace = false) : trimRight l = l := by
  induction l with
  | nil => rfl
  | cons c cs ih =>
    cases cs with
    | nil =>
      have hc : c.isWhitespace = false := h c (by simp)
      simp [trimRight, hc]
    | cons b bs =>
      have hcs : trimRight (b :: bs) = b :: bs := by
        apply ih
        intro x hx
        apply h
        rwa [List.getLast?_cons_cons]
      rw [trimRight, hcs]

theorem trimRight_cons_not_ws (c : Char) (cs : List Char)
    (h : c.isWhitespace = false) : ∃ r, trimRight (c :: cs) = c :: r := by
  simp only [trimRight]
  cases htr : trimRight cs with
  | nil => exact ⟨[], by simp [h]⟩
  | cons a r => exact ⟨a :: r, rfl⟩

theorem mem_of_mem_trimRight {x : Char} {l : List Char} (h : x ∈ trimRight l) :
    x ∈ l := by
  obtain ⟨t, ht⟩ := trimRight_isPre l
  rw [← ht]
  exact List.mem_append_left t h

theorem mem_of_mem_trimChars {x : Char} {l : List Char} (h : x ∈ trimChars l) :
    x ∈ l :=
  (List.dropWhile_sublist Char.isWhitespace).mem (mem_of_mem_trimRight h)

theorem normalizeText_data (s : String) :
    (normalizeText s).data = trimChars (s.data.map normChar) := rfl

theorem mem_normalizeText_fixed {x : Char} {s : String}
    (h : x ∈ (normalizeText s).data) : normChar x = x := by
  rw [normalizeText_data] at h
  obtain ⟨y, _, hy⟩ := List.mem_map.mp (mem_of_mem_trimChars h)
  rw [← hy]
  exact normChar_idem y

theorem not_ws_of_dropWhile_cons {α : Type} {p : α → Bool} {u w : List α} {c : α}
    (h : u.dropWhile p = c :: w) : p c = false := by
  induction u with
  | nil => simp [List.dropWhile] at h
  | cons a t ih =>
    by_cases hp : p a = true
    · rw [List.dropWhile_cons, if_pos hp] at h
      exact ih h
    · rw [List.dropWhile_cons, if_neg hp] at h
      injection h with h1 h2
      rw [← h1]
      simpa using hp

theorem head_normalizeText_not_ws {s : String} {c : Char} {r : List Char}
    (h : (normalizeText s).data = c :: r) : c.isWhitespace = false := by
  rw [normalizeText_data, trimChars] at h
  obtain ⟨t, ht⟩ := trimRight_isPre ((s.data.map normChar).dropWhile Char.isWhitespace)
  rw [h] at ht
  have hd : (s.data.map normChar).dropWhile Char.isWhitespace = c :: (r ++ t) := by
    rw [← ht, List.cons_append]
  exact not_ws_of_dropWhile_cons hd

theorem string_mk_ne_empty {l : List Char} (h : l ≠ []) : (⟨l⟩ : String) ≠ "" := by
  intro hcontra
  exact h (congrArg String.data hcontra)

/-! ## Sorting lemmas -/

theorem sortResults_nil {α : Type} (le : α → α → Bool) :
    sortResults le [] = [] := rfl

theorem sortResults_cons {α : Type} (le : α → α → Bool) (a : α) (l : List α) :
    sortResults le (a :: l) = insertLe le a (sortResults le l) := rfl

theorem mem_insertLe {α : Type} (le : α → α → Bool) (a x : α) (l : List α) :
    x ∈ insertLe le a l ↔ x = a ∨ x ∈ l := by
  induction l with
  | nil => simp [insertLe]
  | cons b t ih =>
    simp only [insertLe]
    split
    · simp [List.mem_cons]
    · simp only [List.mem_cons, ih]
      tauto

theorem pairwise_insertLe {α : Type} (le : α → α → Bool)
    (htrans : ∀ a b c, le a b = true → le b c = true → le a c = true)
    (htotal : ∀ a b, le a b = true ∨ le b a = true)
    (a : α) (l : List α) (hl : l.Pairwise (fun x y => le x y = true)) :
    (insertLe le a l).Pairwise (fun x y => le x y = true) := by
  induction l with
  | nil => simp [insertLe]
  | cons b t ih =>
    rw [List.pairwise_cons] at hl
    obtain ⟨hb, ht⟩ := hl
    simp only [insertLe]
    split
    case isTrue h =>
      rw [List.pairwise_cons]
      refine ⟨?_, List.pairwise_cons.mpr ⟨hb, ht⟩⟩
      intro x hx
      rcases List.mem_cons.mp hx with rfl | hx
      · exact h
      · exact htrans a b x h (hb x hx)
    case isFalse h =>
      have hba : le b a = true := by
        rcases htotal a b with hab | hba
        · exact absurd hab h
        · exact hba
      rw [List.pairwise_cons]
      refine ⟨?_, ih ht⟩
      intro x hx
      rcases (mem_insertLe le a x t).mp hx with rfl | hx
      · exact hba
      · exact hb x hx

theorem pairwise_sortResults {α : Type} (le : α → α → Bool)
    (htrans : ∀ a b c, le a b = true → le b c = true → le a c = true)
    (htotal : ∀ a b, le a b = true ∨ le b a = true)
    (l : List α) :
    (sortResults le l).Pairwise (fun x y => le x y = true) := by
  induction l with
  | nil => simp [sortResults_nil]
  | cons a t ih =>
    rw [sortResults_cons]
    exact pairwise_insertLe le htrans htotal a _ ih

theorem filter_insertLe {α : Type} (le : α → α → Bool) (φ : α → Bool) (a : α)
    (l : List α) (hcomp : ∀ b, φ a = true → φ b = true → le a b = true) :
    (insertLe le a l).filter φ =
      if φ a then a :: l.filter φ else l.filter φ := by
  induction l with
  | nil => cases hφ : φ a <;> simp [insertLe, List.filter, hφ]
  | cons b t ih =>
    simp only [insertLe]
    split
    case isTrue h => rw [List.filter_cons]
    case isFalse h =>
      by_cases hb : φ b = true
      · by_cases ha : φ a = true
        · exact absurd (hcomp b ha hb) (by simpa using h)
        · simp [List.filter_cons, hb, ha, ih]
      · simp only [Bool.not_eq_true] at hb
        simp [List.filter_cons, hb, ih]

theorem filter_sortResults {α : Type} (le : α → α → Bool) (φ : α → Bool)
    (l : List α) (hcomp : ∀ a b, φ a = true → φ b = true → le a b = true) :
    (sortResults le l).filter φ = l.filter φ := by
  induction l with
  | nil => rfl
  | cons a t ih =>
    rw [sortResults_cons, filter_insertLe le φ a _ (fun b => hcomp a b),
      List.filter_cons, ih]

theorem string_length_data (s : String) : s.length = s.data.length := rfl

theorem normalizeText_of_pre {s P : String} (hne : P ≠ "")
    (hpre : P.data <+: (normalizeText s).data) :
    (normalizeText P).data = trimRight P.data := by
  obtain ⟨t, ht⟩ := hpre
  cases hP : P.data with
  | nil =>
    exact absurd (@String.ext P "" hP) hne
  | cons c rest =>
    have hns : (normalizeText s).data = c :: (rest ++ t) := by
      rw [← ht, hP, List.cons_append]
    have hcw : c.isWhitespace = false := head_normalizeText_not_ws hns
    have hmap : P.data.map normChar = P.data := by
      have hfix : ∀ x ∈ P.data, normChar x = x := by
        intro x hx
        have hx2 : x ∈ (normalizeText s).data := by
          rw [← ht]
          exact List.mem_append_left t hx
        exact mem_normalizeText_fixed hx2
      calc P.data.map normChar = P.data.map id := List.map_congr_left hfix
        _ = P.data := List.map_id P.data
    rw [normalizeText_data, hmap, trimChars, hP, List.dropWhile_cons,
      if_neg (by simp [hcw]), ← hP]

theorem normalizeText_ne_empty_of_pre {s P : String} (hne : P ≠ "")
    (hpre : P.data <+: (normalizeText s).data) : normalizeText P ≠ "" := by
  have h1 := normalizeText_of_pre hne hpre
  obtain ⟨t, ht⟩ := hpre
  cases hP : P.data with
  | nil => exact absurd (@String.ext P "" hP) hne
  | cons c rest =>
    have hns : (normalizeText s).data = c :: (rest ++ t) := by
      rw [← ht, hP, List.cons_append]
    have hcw : c.isWhitespace = false := head_normalizeText_not_ws hns
    obtain ⟨r, hr⟩ := trimRight_cons_not_ws c rest hcw
    intro hcontra
    have : (normalizeText P).data = [] := by rw [hcontra]
    rw [h1, hP, hr] at this
    exact List.cons_ne_nil c r this

theorem normalizeText_pre_trans {s P : String} (hne : P ≠ "")
    (hpre : P.data <+: (normalizeText s).data) :
    (normalizeText P).data <+: (normalizeText s).data := by
  rw [normalizeText_of_pre hne hpre]
  exact (trimRight_isPre P.data).trans hpre

theorem normalizeText_eq_self_of_pre {s P : String} (hne : P ≠ "")
    (hpre : P.data <+: (normalizeText s).data)
    (hlast : ∀ c ∈ P.data.getLast?, c.isWhitespace = false) :
    normalizeText P = P := by
  apply String.ext
  rw [normalizeText_of_pre hne hpre]
  exact trimRight_eq_self P.data hlast

theorem trimRight_map {f : Char → Char}
    (hws : ∀ c, (f c).isWhitespace = c.isWhitespace) (l : List Char) :
    trimRight (l.map f) = (trimRight l).map f := by
  induction l with
  | nil => rfl
  | cons c cs ih =>
    rw [List.map_cons, trimRight, trimRight, ih]
    cases htr : trimRight cs with
    | nil =>
      simp only [List.map_nil, hws c]
      cases hcw : c.isWhitespace <;> simp
    | cons a r => simp

theorem trimChars_map_normChar (l : List Char) :
    trimChars (l.map normChar) = (trimChars l).map normChar := by
  have hdw : (l.map normChar).dropWhile Char.isWhitespace
      = (l.dropWhile Char.isWhitespace).map normChar := by
    rw [List.dropWhile_map]
    have : (Char.isWhitespace ∘ normChar) = Char.isWhitespace := by
      funext c
      exact isWhitespace_normChar c
    rw [this]
  rw [trimChars, hdw, trimRight_map isWhitespace_normChar]
  rfl

theorem normalizeText_length_of_trimmed {N : String}
    (htrim : trimChars N.data = N.data) :
    (normalizeText N).length = N.length := by
  rw [string_length_data, string_length_data, normalizeText_data,
    trimChars_map_normChar, htrim, List.length_map]

/-! ## Matcher lemmas -/

theorem ne_empty_data {s : String} (h : s ≠ "") : s.data ≠ [] := by
  intro hc
  exact h (@String.ext _ "" hc)

theorem mem_matchQuery {gaz : List City} {q : String} {c : Candidate}
    (h : c ∈ matchQuery gaz q) :
    c.city ∈ gaz ∧ c.matchedLength = (normalizeText q).length
      ∧ normalizeText q ≠ "" := by
  by_cases hq : normalizeText q = ""
  · simp [matchQuery, hq] at h
  · simp only [matchQuery, if_neg hq] at h
    obtain ⟨city, hcity, rfl⟩ := List.mem_map.mp h
    exact ⟨(List.mem_filter.mp hcity).1, rfl, hq⟩

theorem matchQuery_mem_of_name {gaz : List City} {N : City} {P : String}
    (hN : N ∈ gaz) (hne : P ≠ "")
    (hpre : P.data <+: (normalizeText N.name).data) :
    (⟨N, (normalizeText P).length, (normalizeText P).length⟩ : Candidate)
      ∈ matchQuery gaz P := by
  have hq : normalizeText P ≠ "" := normalizeText_ne_empty_of_pre hne hpre
  simp only [matchQuery, if_neg hq]
  apply List.mem_map.mpr
  refine ⟨N, ?_, rfl⟩
  apply List.mem_filter.mpr
  refine ⟨hN, ?_⟩
  simp only [Bool.or_eq_true]
  left
  rw [ List.isPrefixOf_iff_prefix]
  exact normalizeText_pre_trans hne hpre

/-! ## Scoring lemmas -/

theorem rat_floor_eq_floor (q : ℚ) : Rat.floor q = ⌊q⌋ := rfl

theorem clamp01_nonneg (q : ℚ) : 0 ≤ clamp01 q := by
  rw [clamp01]
  split_ifs with h1 h2
  · exact le_refl 0
  · exact zero_le_one
  · linarith [not_le.mp h1]

theorem clamp01_le_one (q : ℚ) : clamp01 q ≤ 1 := by
  rw [clamp01]
  split_ifs with h1 h2
  · exact zero_le_one
  · exact le_refl 1
  · linarith [not_le.mp h2]

theorem round2_nonneg {q : ℚ} (h : 0 ≤ q) : 0 ≤ round2 q := by
  rw [round2]
  apply div_nonneg _ (by norm_num)
  rw [rat_floor_eq_floor]
  have hz : (0 : ℤ) ≤ ⌊q * 100 + 1/2⌋ := by
    apply Int.le_floor.mpr
    push_cast
    linarith
  exact_mod_cast hz

theorem round2_le_one {q : ℚ} (h : q ≤ 1) : round2 q ≤ 1 := by
  rw [round2, rat_floor_eq_floor]
  have h1 : (⌊q * 100 + 1/2⌋ : ℚ) ≤ q * 100 + 1/2 := Int.floor_le _
  have h2 : ⌊q * 100 + 1/2⌋ < 101 := by
    have hq : (⌊q * 100 + 1/2⌋ : ℚ) < ((101 : ℤ) : ℚ) := by push_cast; linarith
    exact_mod_cast hq
  have hle : ⌊q * 100 + 1/2⌋ ≤ 100 := by omega
  rw [div_le_one (by norm_num)]
  exact_mod_cast hle

theorem clamp01_one : clamp01 1 = 1 := by norm_num [clamp01]

theorem round2_one : round2 1 = 1 := by with_unfolding_all decide

/-! ## Comparator order facts -/

theorem sortResultsByPopulation_trans (a b c : Candidate)
    (h1 : sortResultsByPopulation a b = true)
    (h2 : sortResultsByPopulation b c = true) :
    sortResultsByPopulation a c = true := by
  simp only [sortResultsByPopulation, decide_eq_true_eq] at h1 h2 ⊢
  exact le_trans h2 h1

theorem sortResultsByPopulation_total (a b : Candidate) :
    sortResultsByPopulation a b = true ∨ sortResultsByPopulation b a = true := by
  simp only [sortResultsByPopulation, decide_eq_true_eq]
  exact le_total _ _

theorem sortResultsByDistance_trans (p : ℚ × ℚ) (a b c : Candidate)
    (h1 : sortResultsByDistance p a b = true)
    (h2 : sortResultsByDistance p b c = true) :
    sortResultsByDistance p a c = true := by
  simp only [sortResultsByDistance, decide_eq_true_eq] at h1 h2 ⊢
  exact le_trans h1 h2

theorem sortResultsByDistance_total (p : ℚ × ℚ) (a b : Candidate) :
    sortResultsByDistance p a b = true ∨ sortResultsByDistance p b a = true := by
  simp only [sortResultsByDistance, decide_eq_true_eq]
  exact le_total _ _

/-! ## Claim theorems -/

/-- Claim C1: for every gazetteer, query, optional point and non-negative
`maxResults`, `suggest` returns at most `maxResults` suggestions, and with
`maxResults = 0` it returns the empty sequence regardless of the candidates. -/
theorem suggest_length_le (gaz : List City) (q : String) (pt : Option (ℚ × ℚ))
    (maxResults : ℕ) :
    (suggest gaz q pt maxResults).length ≤ maxResults
      ∧ suggest gaz q pt 0 = [] := by
  refine ⟨?_, ?_⟩
  · cases pt with
    | none =>
      simp only [suggest, scoreResults, List.length_map, List.length_take]
      exact min_le_left _ _
    | some p =>
      simp only [suggest, scoreResults, List.length_map, List.length_take]
      exact min_le_left _ _
  · cases pt with
    | none => rfl
    | some p => rfl

/-- Whether a coordinate parameter is supplied and numeric: present, and a
non-empty string that parses as a number. -/
def suppliedNumeric : Option String → Bool
  | none => false
  | some s => numericString s

/-- Claim C2: distance mode is active exactly when both coordinates are
supplied and numeric, for every request that passes the coordinate validation
(a rejected request ranks nothing, so no mode is active there); and in
distance mode every pair of adjacent returned entries is ordered by
non-decreasing haversine distance from the supplied point. -/
theorem distanceMode_iff_and_sorted :
    (∀ lat lon : Option String, passesCoordValidation lat lon = true →
      (distanceMode lat lon = true ↔
        (suppliedNumeric lat = true ∧ suppliedNumeric lon = true)))
    ∧ ∀ (gaz : List City) (q : String) (p : ℚ × ℚ) (k : ℕ),
        (suggest gaz q (some p) k).Pairwise (fun s t =>
          haversineDistance p.1 p.2 s.latitude s.longitude
            ≤ haversineDistance p.1 p.2 t.latitude t.longitude) := by
  constructor
  · intro lat lon hv
    rw [passesCoordValidation] at hv
    cases lat with
    | none => simp [distanceMode, truthy, suppliedNumeric]
    | some s =>
      cases lon with
      | none => simp [distanceMode, truthy, suppliedNumeric]
      | some sl =>
        cases hse : s.isEmpty <;> cases hsle : sl.isEmpty <;>
          cases hjs : jsToNumber s <;> cases hjsl : jsToNumber sl <;>
          simp_all [distanceMode, truthy, suppliedNumeric, numericString,
            jsIsNaN, optStr]
  · intro gaz q p k
    have hp : (sortResults (sortResultsByDistance p) (matchQuery gaz q)).Pairwise
        (fun a b => sortResultsByDistance p a b = true) :=
      pairwise_sortResults _ (sortResultsByDistance_trans p)
        (sortResultsByDistance_total p) _
    have ht := hp.sublist (List.take_sublist k _)
    show (List.map mkSuggestion _).Pairwise _
    rw [List.pairwise_map]
    apply ht.imp
    intro a b hab
    simpa [sortResultsByDistance, mkSuggestion] using hab

/-- Witness for claim C2 at a concrete request: the point (43, -81) passes
validation, and there the mode equivalence holds. -/
theorem distanceMode_iff_and_sorted_witness :
    passesCoordValidation (some "43") (some "-81") = true
      ∧ (distanceMode (some "43") (some "-81") = true ↔
          (suppliedNumeric (some "43") = true
            ∧ suppliedNumeric (some "-81") = true)) :=
  ⟨by with_unfolding_all decide,
    distanceMode_iff_and_sorted.1 (some "43") (some "-81")
      (by with_unfolding_all decide)⟩

/-- Claim C3: when no coordinates are supplied the ranking is by
non-increasing population, the returned sequence is the truncated, scored
image of that ranking, and the sort is stable: candidates of any fixed
population keep their relative order from the Matcher output. -/
theorem populationMode_sorted_stable (gaz : List City) (q : String) (k : ℕ)
    (p : ℕ) :
    suggest gaz q none k =
      ((sortResults sortResultsByPopulation (matchQuery gaz q)).take k).map
        mkSuggestion
    ∧ (sortResults sortResultsByPopulation (matchQuery gaz q)).Pairwise
        (fun a b => b.city.population ≤ a.city.population)
    ∧ ((sortResults sortResultsByPopulation (matchQuery gaz q)).take k).Pairwise
        (fun a b => b.city.population ≤ a.city.population)
    ∧ (sortResults sortResultsByPopulation (matchQuery gaz q)).filter
        (fun c => c.city.population = p)
      = (matchQuery gaz q).filter (fun c => c.city.population = p) := by
  have hp : (sortResults sortResultsByPopulation (matchQuery gaz q)).Pairwise
      (fun a b => sortResultsByPopulation a b = true) :=
    pairwise_sortResults _ sortResultsByPopulation_trans
      sortResultsByPopulation_total _
  refine ⟨rfl, ?_, ?_, ?_⟩
  · apply hp.imp
    intro a b hab
    simpa [sortResultsByPopulation] using hab
  · apply (hp.sublist (List.take_sublist k _)).imp
    intro a b hab
    simpa [sortResultsByPopulation] using hab
  · apply filter_sortResults
    intro a b ha hb
    simp only [decide_eq_true_eq] at ha hb
    simp [sortResultsByPopulation, ha, hb]

/-! ## Concrete records used by witnesses and counterexamples -/

/-- London (United Kingdom), coordinates rounded to integers. -/
def cityLondon : City := ⟨"London", [], 51, 0, 80, "GB", "ENG"⟩

/-- London (Ontario), coordinates rounded to integers. -/
def cityLondonOn : City := ⟨"London", [], 43, -81, 40, "CA", "ON"⟩

/-- A record whose normalized name contains an internal space. -/
def cityNewYork : City := ⟨"New York", [], 40, -74, 80, "US", "NY"⟩

set_option maxRecDepth 4000 in
/-- Claim C4 counterexample: the string "new " is a non-empty prefix of
"new york", the normalized form of the name "New York", yet querying it
produces a single candidate whose raw score is 3/8 — the trailing space of
the query is removed by normalization before matching — and no candidate
scores |P| / |N| = 4/8. -/
theorem scorePrefixClaim_counterexample :
    ("new ".data <+: (normalizeText cityNewYork.name).data)
      ∧ "new " ≠ ""
      ∧ matchQuery [cityNewYork] "new " = [⟨cityNewYork, 3, 3⟩]
      ∧ scoreCandidate ⟨cityNewYork, 3, 3⟩ = 3/8
      ∧ ¬∃ cand ∈ matchQuery [cityNewYork] "new ",
          cand.city.name = cityNewYork.name
            ∧ scoreCandidate cand
              = ("new ".length : ℚ) / (cityNewYork.name.length : ℚ) := by
  with_unfolding_all decide

/-- Claim C4 (amended): for every gazetteer record N and every non-empty
prefix P of its normalized name, querying P yields a candidate whose name is
the record name and whose raw score is
length(normalize(P)) / length(normalize(name)); when P does not end in
whitespace and the stored name carries no surrounding whitespace this equals
|P| / |N|. -/
theorem scoreOfMatchedName (gaz : List City) (N : City) (P : String)
    (hN : N ∈ gaz) (hne : P ≠ "")
    (hpre : P.data <+: (normalizeText N.name).data) :
    (∃ cand ∈ matchQuery gaz P, cand.city.name = N.name
        ∧ scoreCandidate cand
          = ((normalizeText P).length : ℚ)
            / ((normalizeText N.name).length : ℚ))
    ∧ ((∀ c ∈ P.data.getLast?, c.isWhitespace = false) →
        trimChars N.name.data = N.name.data →
        ∃ cand ∈ matchQuery gaz P, cand.city.name = N.name
          ∧ scoreCandidate cand = (P.length : ℚ) / (N.name.length : ℚ)) := by
  have hmem := matchQuery_mem_of_name hN hne hpre
  constructor
  · exact ⟨_, hmem, rfl, rfl⟩
  · intro hlast htrim
    refine ⟨_, hmem, rfl, ?_⟩
    have hP : normalizeText P = P := normalizeText_eq_self_of_pre hne hpre hlast
    show ((normalizeText P).length : ℚ) / ((normalizeText N.name).length : ℚ)
      = (P.length : ℚ) / (N.name.length : ℚ)
    rw [hP, normalizeText_length_of_trimmed htrim]

set_option maxRecDepth 4000 in
/-- Witness for the amended claim C4 at a concrete input. -/
theorem scoreOfMatchedName_witness :
    cityLondon ∈ [cityLondon] ∧ ("lond" : String) ≠ ""
      ∧ ("lond".data <+: (normalizeText cityLondon.name).data)
      ∧ (∃ cand ∈ matchQuery [cityLondon] "lond",
          cand.city.name = cityLondon.name
            ∧ scoreCandidate cand
              = ((normalizeText "lond").length : ℚ)
                / ((normalizeText cityLondon.name).length : ℚ)) :=
  ⟨by with_unfolding_all decide, by with_unfolding_all decide,
    by with_unfolding_all decide,
    (scoreOfMatchedName [cityLondon] cityLondon "lond"
      (by with_unfolding_all decide) (by with_unfolding_all decide)
      (by with_unfolding_all decide)).1⟩

/-- Claim C5: every emitted suggestion carries a score inside [0, 1] that is
an integer multiple of 1/100 (rounded to two decimal places at attachment);
an exact full-name match is scored exactly 1. -/
theorem suggestionScore_range :
    (∀ (gaz : List City) (q : String) (pt : Option (ℚ × ℚ)) (k : ℕ),
      ∀ s ∈ suggest gaz q pt k,
        0 ≤ s.score ∧ s.score ≤ 1 ∧ ∃ z : ℤ, s.score = (z : ℚ) / 100)
    ∧ ∀ (gaz : List City) (q : String) (c : Candidate),
        c ∈ matchQuery gaz q → normalizeText c.city.name = normalizeText q →
        (mkSuggestion c).score = 1 := by
  constructor
  · intro gaz q pt k s hs
    have hex : ∃ c, s = mkSuggestion c := by
      cases pt with
      | none =>
        simp only [suggest, scoreResults] at hs
        obtain ⟨c, -, hc⟩ := List.mem_map.mp hs
        exact ⟨c, hc.symm⟩
      | some p =>
        simp only [suggest, scoreResults] at hs
        obtain ⟨c, -, hc⟩ := List.mem_map.mp hs
        exact ⟨c, hc.symm⟩
    obtain ⟨c, rfl⟩ := hex
    refine ⟨round2_nonneg (clamp01_nonneg _), round2_le_one (clamp01_le_one _),
      Rat.floor (clamp01 (scoreCandidate c) * 100 + 1/2), rfl⟩
  · intro gaz q c hc hname
    obtain ⟨-, hlen, hq⟩ := mem_matchQuery hc
    have hpos : 0 < (normalizeText q).length := by
      rw [string_length_data]
      exact List.length_pos.mpr (ne_empty_data hq)
    have hden : ((normalizeText q).length : ℚ) ≠ 0 := by
      exact_mod_cast hpos.ne'
    show round2 (clamp01 (scoreCandidate c)) = 1
    rw [scoreCandidate, hname, hlen, div_self hden, clamp01_one, round2_one]

set_option maxRecDepth 4000 in
/-- Witness for claim C5: a served suggestion with score 83/100, and an exact
full-name match scored 1. -/
theorem suggestionScore_range_witness :
    (⟨"London", 51, 0, 83/100⟩ : Suggestion) ∈ suggest [cityLondon] "Londo" none 4
      ∧ (0 ≤ (Suggestion.mk "London" 51 0 (83/100)).score
          ∧ (Suggestion.mk "London" 51 0 (83/100)).score ≤ 1
          ∧ ∃ z : ℤ, (Suggestion.mk "London" 51 0 (83/100)).score = (z : ℚ) / 100)
      ∧ (⟨cityLondon, 6, 6⟩ : Candidate) ∈ matchQuery [cityLondon] "London"
      ∧ normalizeText (⟨cityLondon, 6, 6⟩ : Candidate).city.name
          = normalizeText "London"
      ∧ (mkSuggestion ⟨cityLondon, 6, 6⟩).score = 1 :=
  ⟨by with_unfolding_all decide,
    suggestionScore_range.1 [cityLondon] "Londo" none 4 _
      (by with_unfolding_all decide),
    by with_unfolding_all decide,
    by with_unfolding_all decide,
    suggestionScore_range.2 [cityLondon] "London" _
      (by with_unfolding_all decide) (by with_unfolding_all decide)⟩

/-- Claim C6: the core treats an empty query as "no candidates" and returns
the empty sequence without error, while the host rejects a missing or empty
`q` parameter with the missing-parameter response before the pipeline runs. -/
theorem emptyQuery_handling (gaz : List City) (pt : Option (ℚ × ℚ)) (k : ℕ)
    (maxR : ℕ) (lat lon : Option String) :
    suggest gaz "" pt k = []
      ∧ matchQuery gaz "" = []
      ∧ handlerSuggestion gaz maxR none lat lon = Response.missingParam
      ∧ handlerSuggestion gaz maxR (some "") lat lon = Response.missingParam := by
  have hmq : matchQuery gaz "" = [] := by
    have hnt : normalizeText "" = "" := rfl
    simp [matchQuery, hnt]
  refine ⟨?_, hmq, rfl, ?_⟩
  · cases pt with
    | none => simp [suggest, hmq, sortResults_nil, scoreResults]
    | some p => simp [suggest, hmq, sortResults_nil, scoreResults]
  · simp [handlerSuggestion]

/-! ## Loader lemmas -/

theorem parseRow_cases (r : RawRow) :
    (malformedRow r = true → ∃ w, parseRow r = Except.error w)
    ∧ (malformedRow r = false → ∃ c, parseRow r = Except.ok c) := by
  rw [malformedRow, parseRow]
  cases hla : jsToNumber r.latitude with
  | none => simp
  | some la =>
    cases hlo : jsToNumber r.longitude with
    | none => simp
    | some lo =>
      dsimp only
      constructor
      · intro hbad
        simp only [Bool.or_eq_true, decide_eq_true_eq] at hbad
        split_ifs with h1 h2 h3
        · exact ⟨_, rfl⟩
        · exact ⟨_, rfl⟩
        · exact ⟨_, rfl⟩
        · exfalso
          rcases hbad with ((((hb | hb) | hb) | hb) | hb)
          · exact h1 (Or.inl hb)
          · exact h1 (Or.inr hb)
          · exact h2 (Or.inl hb)
          · exact h2 (Or.inr hb)
          · exact h3 hb
      · intro hgood
        simp only [Bool.or_eq_false_iff, decide_eq_false_iff_not] at hgood
        obtain ⟨⟨⟨⟨hg1, hg2⟩, hg3⟩, hg4⟩, hg5⟩ := hgood
        rw [if_neg (by tauto), if_neg (by tauto), if_neg hg5]
        exact ⟨_, rfl⟩

theorem loadRows_cons (r : RawRow) (rs : List RawRow) :
    loadRows (r :: rs) =
      match parseRow r with
      | .ok c => (c :: (loadRows rs).1, (loadRows rs).2)
      | .error w => ((loadRows rs).1, w :: (loadRows rs).2) := by
  rw [loadRows]
  rcases hlr : loadRows rs with ⟨cs, ws⟩
  cases parseRow r <;> simp

theorem mem_loadRows_of_ok {r : RawRow} {c : City}
    (hok : parseRow r = Except.ok c) :
    ∀ rows : List RawRow, r ∈ rows → c ∈ (loadRows rows).1 := by
  intro rows
  induction rows with
  | nil => intro h; cases h
  | cons a t ih =>
    intro hmem
    rw [loadRows_cons]
    rcases List.mem_cons.mp hmem with rfl | hmem
    · rw [hok]
      exact List.mem_cons_self _ _
    · cases hpa : parseRow a with
      | ok c2 => exact List.mem_cons_of_mem c2 (ih hmem)
      | error w => exact ih hmem

/-! ## Remaining claim theorems -/

/-- Claim C7: with a valid query and coordinates, the handler always answers
with a suggestions body — an empty survivor set is an empty sequence, not an
error — and the host status mapping sends the empty body to 404 (not found)
and any non-empty body to 200 (found). -/
theorem notFound_mapping (gaz : List City) (maxR : ℕ) (qs : String)
    (lat lon : Option String) (hq : qs ≠ "")
    (hv : passesCoordValidation lat lon = true) :
    (∃ body, handlerSuggestion gaz maxR (some qs) lat lon
        = Response.suggestions body)
    ∧ ∀ body : List Suggestion,
        (statusOf (Response.suggestions body) = 404 ↔ body = [])
          ∧ (statusOf (Response.suggestions body) = 200 ↔ body ≠ []) := by
  constructor
  · rw [handlerSuggestion]
    rw [if_neg hq, hv]
    simp only [Bool.not_true, Bool.false_eq_true, if_false]
    by_cases hd : distanceMode lat lon = true
    · rw [if_pos hd]
      exact ⟨_, rfl⟩
    · rw [if_neg hd]
      exact ⟨_, rfl⟩
  · intro body
    cases body <;> simp [statusOf]

/-- Witness for claim C7 at a concrete request with no candidates. -/
theorem notFound_mapping_witness :
    (("zzz" : String) ≠ "" ∧ passesCoordValidation none none = true)
      ∧ ((∃ body, handlerSuggestion [cityLondon] 4 (some "zzz") none none
            = Response.suggestions body)
        ∧ ∀ body : List Suggestion,
            (statusOf (Response.suggestions body) = 404 ↔ body = [])
              ∧ (statusOf (Response.suggestions body) = 200 ↔ body ≠ [])) :=
  ⟨⟨by with_unfolding_all decide, by with_unfolding_all decide⟩,
    notFound_mapping [cityLondon] 4 "zzz" none none
      (by with_unfolding_all decide) (by with_unfolding_all decide)⟩

/-- Claim C8: an unopenable gazetteer source fails with a LoadError and the
service never reaches the ready serving state; any opened source loads and
the service becomes ready. -/
theorem loadError_notReady :
    load none = Except.error "LoadError: unable to open gazetteer source"
      ∧ initServer none = InitOutcome.notReady
      ∧ ∀ source, initServer source = InitOutcome.notReady ↔ source = none := by
  refine ⟨rfl, rfl, ?_⟩
  intro source
  cases source with
  | none => simp [initServer, load]
  | some rows => simp [initServer, load]

/-- Claim C9: inserting a malformed row anywhere in the source leaves the
loaded catalog unchanged and adds exactly one warning, the load still
succeeds, and every well-formed row yields a record that loads wherever the
row appears. -/
theorem malformedRow_skipped (pre post : List RawRow) (r : RawRow)
    (hbad : malformedRow r = true) :
    (loadRows (pre ++ r :: post)).1 = (loadRows (pre ++ post)).1
      ∧ (loadRows (pre ++ r :: post)).2.length
          = (loadRows (pre ++ post)).2.length + 1
      ∧ load (some (pre ++ r :: post)) = Except.ok (loadRows (pre ++ r :: post))
      ∧ ∀ r2 : RawRow, malformedRow r2 = false →
          ∃ c : City, parseRow r2 = Except.ok c
            ∧ ∀ rows : List RawRow, r2 ∈ rows → c ∈ (loadRows rows).1 := by
  obtain ⟨w, hw⟩ := (parseRow_cases r).1 hbad
  have hmain : ∀ pre2 : List RawRow,
      (loadRows (pre2 ++ r :: post)).1 = (loadRows (pre2 ++ post)).1
        ∧ (loadRows (pre2 ++ r :: post)).2.length
            = (loadRows (pre2 ++ post)).2.length + 1 := by
    intro pre2
    induction pre2 with
    | nil =>
      simp only [List.nil_append]
      rw [loadRows_cons, hw]
      simp
    | cons a t ih =>
      simp only [List.cons_append]
      rw [loadRows_cons, loadRows_cons]
      cases hpa : parseRow a with
      | ok c2 => simp [ih.1, ih.2]
      | error w2 => simp [ih.1, ih.2]
  refine ⟨(hmain pre).1, (hmain pre).2, rfl, ?_⟩
  intro r2 hgood
  obtain ⟨c, hc⟩ := (parseRow_cases r2).2 hgood
  exact ⟨c, hc, mem_loadRows_of_ok hc⟩

/-- Witness for claim C9: a row with latitude 200 is skipped (one warning),
the remaining rows still load, and a well-formed row loads. -/
theorem malformedRow_skipped_witness :
    malformedRow ⟨"Bad", "", "200", "0", "5", "XX", "00"⟩ = true
      ∧ (loadRows [⟨"Good", "", "10", "20", "7", "CA", "01"⟩,
            ⟨"Bad", "", "200", "0", "5", "XX", "00"⟩]).1
          = (loadRows [⟨"Good", "", "10", "20", "7", "CA", "01"⟩]).1
      ∧ (loadRows [⟨"Good", "", "10", "20", "7", "CA", "01"⟩,
            ⟨"Bad", "", "200", "0", "5", "XX", "00"⟩]).2.length
          = (loadRows [⟨"Good", "", "10", "20", "7", "CA", "01"⟩]).2.length + 1 :=
  ⟨by with_unfolding_all decide,
    ((malformedRow_skipped [⟨"Good", "", "10", "20", "7", "CA", "01"⟩] []
        ⟨"Bad", "", "200", "0", "5", "XX", "00"⟩
        (by with_unfolding_all decide)).1),
    ((malformedRow_skipped [⟨"Good", "", "10", "20", "7", "CA", "01"⟩] []
        ⟨"Bad", "", "200", "0", "5", "XX", "00"⟩
        (by with_unfolding_all decide)).2.1)⟩

/-- Claim C10: a request supplying only one coordinate (numeric), or an
empty-string coordinate, is not rejected: it is served exactly as the same
request without that coordinate, in population mode. -/
theorem singleCoordinate_population (gaz : List City) (maxR : ℕ) (qs : String)
    (hq : qs ≠ "") :
    (∀ s : String, jsIsNaN s = false →
        handlerSuggestion gaz maxR (some qs) (some s) none
          = Response.suggestions (suggest gaz qs none maxR)
      ∧ handlerSuggestion gaz maxR (some qs) none (some s)
          = Response.suggestions (suggest gaz qs none maxR))
    ∧ (∀ lon : Option String,
        handlerSuggestion gaz maxR (some qs) (some "") lon
          = handlerSuggestion gaz maxR (some qs) none lon)
    ∧ handlerSuggestion gaz maxR (some qs) none none
        = Response.suggestions (suggest gaz qs none maxR) := by
  refine ⟨?_, ?_, ?_⟩
  · intro s hn
    constructor
    · rw [handlerSuggestion, if_neg hq]
      simp [passesCoordValidation, distanceMode, truthy, optStr, hn]
    · rw [handlerSuggestion, if_neg hq]
      simp [passesCoordValidation, distanceMode, truthy, optStr, hn]
  · intro lon
    rw [handlerSuggestion, handlerSuggestion]
    rw [if_neg hq, if_neg hq]
    have h1 : truthy (some "") = truthy none := rfl
    have h2 : jsIsNaN (optStr (some "")) = jsIsNaN (optStr none) := rfl
    have h3 : toNumD (some "") = toNumD none := rfl
    simp [passesCoordValidation, distanceMode, h1, h2, h3]
  · rw [handlerSuggestion, if_neg hq]
    simp [passesCoordValidation, distanceMode, truthy]

/-- Witness for claim C10 at a concrete request. -/
theorem singleCoordinate_population_witness :
    (("Lon" : String) ≠ "" ∧ jsIsNaN "43" = false)
      ∧ handlerSuggestion [cityLondon] 4 (some "Lon") (some "43") none
          = Response.suggestions (suggest [cityLondon] "Lon" none 4)
      ∧ handlerSuggestion [cityLondon] 4 (some "Lon") (some "") (some "9")
          = handlerSuggestion [cityLondon] 4 (some "Lon") none (some "9") :=
  ⟨⟨by with_unfolding_all decide, by with_unfolding_all decide⟩,
    ((singleCoordinate_population [cityLondon] 4 "Lon"
        (by with_unfolding_all decide)).1 "43"
      (by with_unfolding_all decide)).1,
    (singleCoordinate_population [cityLondon] 4 "Lon"
        (by with_unfolding_all decide)).2.1 (some "9")⟩
